import Mathlib

/-!
# Verification of the VSCode-Logger documentation pipeline

Shallow embedding of `docs/scripts/ts_doxygen_filter.py` and the two Sphinx
`conf.py` configuration files, together with proofs of the specified
properties of the signature text filter and the configuration logic.

The filter is built from four compiled regular expressions applied by
`re.sub(pattern, "", line)`:

* `ACCESS_MODIFIER = \b(public|private|protected)\s+`
* `READONLY        = \breadonly\s+`
* `GENERICS        = <[^>]+>`
* `TYPE_ANNOTATION = (:\s*[A-Za-z0-9_\[\]\|?<>{}()\.]+)`

Each pattern is embedded as a "match at this position" function returning the
remainder of the string after the match, and `re.sub` as a left-to-right
scanner that deletes every non-overlapping match.  Word boundaries (`\b`)
only ever occur before the first letter of a keyword in these patterns, so
the scanner tracks a single flag: whether the previous character is a
word character.  The character classes are exact: `\s` is the full set of
whitespace codepoints recognised by the `re` module, and `\w` is the full
set of Unicode word characters (alphanumerics and underscore), given as an
explicit list of codepoint ranges.
-/

set_option maxRecDepth 100000

namespace TsFilter

/-- Python `\s` on `str`: the whitespace characters recognised by the `re`
module (ASCII whitespace, the information separators, and the Unicode
space code points). -/
def isPySpace (c : Char) : Bool :=
  c.val = 9 || c.val = 10 || c.val = 11 || c.val = 12 || c.val = 13 ||
  c.val = 28 || c.val = 29 || c.val = 30 || c.val = 31 || c.val = 32 ||
  c.val = 133 || c.val = 160 || c.val = 0x1680 ||
  (0x2000 ≤ c.val && c.val ≤ 0x200A) ||
  c.val = 0x2028 || c.val = 0x2029 || c.val = 0x202F ||
  c.val = 0x205F || c.val = 0x3000

/-- The codepoint ranges of Python's `\w` word characters for `str`
patterns: exactly the characters for which `str.isalnum()` holds (the
Unicode alphanumerics: categories L*, Nd, Nl, No, plus the alphabetic
Other_Alphabetic marks), together with the underscore (codepoint 95).
Surrogate codepoints are excluded (they are not Unicode scalar values, so
a `Char` cannot hold them). -/
def wordRanges : List (Nat × Nat) :=
  [(48, 57), (65, 90), (95, 95), (97, 122), (170, 170), (178, 179), (181, 181), (185, 186),
   (188, 190), (192, 214), (216, 246), (248, 705), (710, 721), (736, 740), (748, 748), (750, 750),
   (880, 884), (886, 887), (890, 893), (895, 895), (902, 902), (904, 906), (908, 908), (910, 929),
   (931, 1013), (1015, 1153), (1162, 1327), (1329, 1366), (1369, 1369), (1376, 1416),
   (1488, 1514), (1519, 1522), (1568, 1610), (1632, 1641), (1646, 1647), (1649, 1747),
   (1749, 1749), (1765, 1766), (1774, 1788), (1791, 1791), (1808, 1808), (1810, 1839),
   (1869, 1957), (1969, 1969), (1984, 2026), (2036, 2037), (2042, 2042), (2048, 2069),
   (2074, 2074), (2084, 2084), (2088, 2088), (2112, 2136), (2144, 2154), (2160, 2183),
   (2185, 2190), (2208, 2249), (2308, 2361), (2365, 2365), (2384, 2384), (2392, 2401),
   (2406, 2415), (2417, 2432), (2437, 2444), (2447, 2448), (2451, 2472), (2474, 2480),
   (2482, 2482), (2486, 2489), (2493, 2493), (2510, 2510), (2524, 2525), (2527, 2529),
   (2534, 2545), (2548, 2553), (2556, 2556), (2565, 2570), (2575, 2576), (2579, 2600),
   (2602, 2608), (2610, 2611), (2613, 2614), (2616, 2617), (2649, 2652), (2654, 2654),
   (2662, 2671), (2674, 2676), (2693, 2701), (2703, 2705), (2707, 2728), (2730, 2736),
   (2738, 2739), (2741, 2745), (2749, 2749), (2768, 2768), (2784, 2785), (2790, 2799),
   (2809, 2809), (2821, 2828), (2831, 2832), (2835, 2856), (2858, 2864), (2866, 2867),
   (2869, 2873), (2877, 2877), (2908, 2909), (2911, 2913), (2918, 2927), (2929, 2935),
   (2947, 2947), (2949, 2954), (2958, 2960), (2962, 2965), (2969, 2970), (2972, 2972),
   (2974, 2975), (2979, 2980), (2984, 2986), (2990, 3001), (3024, 3024), (3046, 3058),
   (3077, 3084), (3086, 3088), (3090, 3112), (3114, 3129), (3133, 3133), (3160, 3162),
   (3165, 3165), (3168, 3169), (3174, 3183), (3192, 3198), (3200, 3200), (3205, 3212),
   (3214, 3216), (3218, 3240), (3242, 3251), (3253, 3257), (3261, 3261), (3293, 3294),
   (3296, 3297), (3302, 3311), (3313, 3314), (3332, 3340), (3342, 3344), (3346, 3386),
   (3389, 3389), (3406, 3406), (3412, 3414), (3416, 3425), (3430, 3448), (3450, 3455),
   (3461, 3478), (3482, 3505), (3507, 3515), (3517, 3517), (3520, 3526), (3558, 3567),
   (3585, 3632), (3634, 3635), (3648, 3654), (3664, 3673), (3713, 3714), (3716, 3716),
   (3718, 3722), (3724, 3747), (3749, 3749), (3751, 3760), (3762, 3763), (3773, 3773),
   (3776, 3780), (3782, 3782), (3792, 3801), (3804, 3807), (3840, 3840), (3872, 3891),
   (3904, 3911), (3913, 3948), (3976, 3980), (4096, 4138), (4159, 4169), (4176, 4181),
   (4186, 4189), (4193, 4193), (4197, 4198), (4206, 4208), (4213, 4225), (4238, 4238),
   (4240, 4249), (4256, 4293), (4295, 4295), (4301, 4301), (4304, 4346), (4348, 4680),
   (4682, 4685), (4688, 4694), (4696, 4696), (4698, 4701), (4704, 4744), (4746, 4749),
   (4752, 4784), (4786, 4789), (4792, 4798), (4800, 4800), (4802, 4805), (4808, 4822),
   (4824, 4880), (4882, 4885), (4888, 4954), (4969, 4988), (4992, 5007), (5024, 5109),
   (5112, 5117), (5121, 5740), (5743, 5759), (5761, 5786), (5792, 5866), (5870, 5880),
   (5888, 5905), (5919, 5937), (5952, 5969), (5984, 5996), (5998, 6000), (6016, 6067),
   (6103, 6103), (6108, 6108), (6112, 6121), (6128, 6137), (6160, 6169), (6176, 6264),
   (6272, 6276), (6279, 6312), (6314, 6314), (6320, 6389), (6400, 6430), (6470, 6509),
   (6512, 6516), (6528, 6571), (6576, 6601), (6608, 6618), (6656, 6678), (6688, 6740),
   (6784, 6793), (6800, 6809), (6823, 6823), (6917, 6963), (6981, 6988), (6992, 7001),
   (7043, 7072), (7086, 7141), (7168, 7203), (7232, 7241), (7245, 7293), (7296, 7304),
   (7312, 7354), (7357, 7359), (7401, 7404), (7406, 7411), (7413, 7414), (7418, 7418),
   (7424, 7615), (7680, 7957), (7960, 7965), (7968, 8005), (8008, 8013), (8016, 8023),
   (8025, 8025), (8027, 8027), (8029, 8029), (8031, 8061), (8064, 8116), (8118, 8124),
   (8126, 8126), (8130, 8132), (8134, 8140), (8144, 8147), (8150, 8155), (8160, 8172),
   (8178, 8180), (8182, 8188), (8304, 8305), (8308, 8313), (8319, 8329), (8336, 8348),
   (8450, 8450), (8455, 8455), (8458, 8467), (8469, 8469), (8473, 8477), (8484, 8484),
   (8486, 8486), (8488, 8488), (8490, 8493), (8495, 8505), (8508, 8511), (8517, 8521),
   (8526, 8526), (8528, 8585), (9312, 9371), (9450, 9471), (10102, 10131), (11264, 11492),
   (11499, 11502), (11506, 11507), (11517, 11517), (11520, 11557), (11559, 11559), (11565, 11565),
   (11568, 11623), (11631, 11631), (11648, 11670), (11680, 11686), (11688, 11694), (11696, 11702),
   (11704, 11710), (11712, 11718), (11720, 11726), (11728, 11734), (11736, 11742), (11823, 11823),
   (12293, 12295), (12321, 12329), (12337, 12341), (12344, 12348), (12353, 12438), (12445, 12447),
   (12449, 12538), (12540, 12543), (12549, 12591), (12593, 12686), (12690, 12693), (12704, 12735),
   (12784, 12799), (12832, 12841), (12872, 12879), (12881, 12895), (12928, 12937), (12977, 12991),
   (13312, 19903), (19968, 42124), (42192, 42237), (42240, 42508), (42512, 42539), (42560, 42606),
   (42623, 42653), (42656, 42735), (42775, 42783), (42786, 42888), (42891, 42954), (42960, 42961),
   (42963, 42963), (42965, 42969), (42994, 43009), (43011, 43013), (43015, 43018), (43020, 43042),
   (43056, 43061), (43072, 43123), (43138, 43187), (43216, 43225), (43250, 43255), (43259, 43259),
   (43261, 43262), (43264, 43301), (43312, 43334), (43360, 43388), (43396, 43442), (43471, 43481),
   (43488, 43492), (43494, 43518), (43520, 43560), (43584, 43586), (43588, 43595), (43600, 43609),
   (43616, 43638), (43642, 43642), (43646, 43695), (43697, 43697), (43701, 43702), (43705, 43709),
   (43712, 43712), (43714, 43714), (43739, 43741), (43744, 43754), (43762, 43764), (43777, 43782),
   (43785, 43790), (43793, 43798), (43808, 43814), (43816, 43822), (43824, 43866), (43868, 43881),
   (43888, 44002), (44016, 44025), (44032, 55203), (55216, 55238), (55243, 55291), (63744, 64109),
   (64112, 64217), (64256, 64262), (64275, 64279), (64285, 64285), (64287, 64296), (64298, 64310),
   (64312, 64316), (64318, 64318), (64320, 64321), (64323, 64324), (64326, 64433), (64467, 64829),
   (64848, 64911), (64914, 64967), (65008, 65019), (65136, 65140), (65142, 65276), (65296, 65305),
   (65313, 65338), (65345, 65370), (65382, 65470), (65474, 65479), (65482, 65487), (65490, 65495),
   (65498, 65500), (65536, 65547), (65549, 65574), (65576, 65594), (65596, 65597), (65599, 65613),
   (65616, 65629), (65664, 65786), (65799, 65843), (65856, 65912), (65930, 65931), (66176, 66204),
   (66208, 66256), (66273, 66299), (66304, 66339), (66349, 66378), (66384, 66421), (66432, 66461),
   (66464, 66499), (66504, 66511), (66513, 66517), (66560, 66717), (66720, 66729), (66736, 66771),
   (66776, 66811), (66816, 66855), (66864, 66915), (66928, 66938), (66940, 66954), (66956, 66962),
   (66964, 66965), (66967, 66977), (66979, 66993), (66995, 67001), (67003, 67004), (67072, 67382),
   (67392, 67413), (67424, 67431), (67456, 67461), (67463, 67504), (67506, 67514), (67584, 67589),
   (67592, 67592), (67594, 67637), (67639, 67640), (67644, 67644), (67647, 67669), (67672, 67702),
   (67705, 67742), (67751, 67759), (67808, 67826), (67828, 67829), (67835, 67867), (67872, 67897),
   (67968, 68023), (68028, 68047), (68050, 68096), (68112, 68115), (68117, 68119), (68121, 68149),
   (68160, 68168), (68192, 68222), (68224, 68255), (68288, 68295), (68297, 68324), (68331, 68335),
   (68352, 68405), (68416, 68437), (68440, 68466), (68472, 68497), (68521, 68527), (68608, 68680),
   (68736, 68786), (68800, 68850), (68858, 68899), (68912, 68921), (69216, 69246), (69248, 69289),
   (69296, 69297), (69376, 69415), (69424, 69445), (69457, 69460), (69488, 69505), (69552, 69579),
   (69600, 69622), (69635, 69687), (69714, 69743), (69745, 69746), (69749, 69749), (69763, 69807),
   (69840, 69864), (69872, 69881), (69891, 69926), (69942, 69951), (69956, 69956), (69959, 69959),
   (69968, 70002), (70006, 70006), (70019, 70066), (70081, 70084), (70096, 70106), (70108, 70108),
   (70113, 70132), (70144, 70161), (70163, 70187), (70272, 70278), (70280, 70280), (70282, 70285),
   (70287, 70301), (70303, 70312), (70320, 70366), (70384, 70393), (70405, 70412), (70415, 70416),
   (70419, 70440), (70442, 70448), (70450, 70451), (70453, 70457), (70461, 70461), (70480, 70480),
   (70493, 70497), (70656, 70708), (70727, 70730), (70736, 70745), (70751, 70753), (70784, 70831),
   (70852, 70853), (70855, 70855), (70864, 70873), (71040, 71086), (71128, 71131), (71168, 71215),
   (71236, 71236), (71248, 71257), (71296, 71338), (71352, 71352), (71360, 71369), (71424, 71450),
   (71472, 71483), (71488, 71494), (71680, 71723), (71840, 71922), (71935, 71942), (71945, 71945),
   (71948, 71955), (71957, 71958), (71960, 71983), (71999, 71999), (72001, 72001), (72016, 72025),
   (72096, 72103), (72106, 72144), (72161, 72161), (72163, 72163), (72192, 72192), (72203, 72242),
   (72250, 72250), (72272, 72272), (72284, 72329), (72349, 72349), (72368, 72440), (72704, 72712),
   (72714, 72750), (72768, 72768), (72784, 72812), (72818, 72847), (72960, 72966), (72968, 72969),
   (72971, 73008), (73030, 73030), (73040, 73049), (73056, 73061), (73063, 73064), (73066, 73097),
   (73112, 73112), (73120, 73129), (73440, 73458), (73648, 73648), (73664, 73684), (73728, 74649),
   (74752, 74862), (74880, 75075), (77712, 77808), (77824, 78894), (82944, 83526), (92160, 92728),
   (92736, 92766), (92768, 92777), (92784, 92862), (92864, 92873), (92880, 92909), (92928, 92975),
   (92992, 92995), (93008, 93017), (93019, 93025), (93027, 93047), (93053, 93071), (93760, 93846),
   (93952, 94026), (94032, 94032), (94099, 94111), (94176, 94177), (94179, 94179),
   (94208, 100343), (100352, 101589), (101632, 101640), (110576, 110579), (110581, 110587),
   (110589, 110590), (110592, 110882), (110928, 110930), (110948, 110951), (110960, 111355),
   (113664, 113770), (113776, 113788), (113792, 113800), (113808, 113817), (119520, 119539),
   (119648, 119672), (119808, 119892), (119894, 119964), (119966, 119967), (119970, 119970),
   (119973, 119974), (119977, 119980), (119982, 119993), (119995, 119995), (119997, 120003),
   (120005, 120069), (120071, 120074), (120077, 120084), (120086, 120092), (120094, 120121),
   (120123, 120126), (120128, 120132), (120134, 120134), (120138, 120144), (120146, 120485),
   (120488, 120512), (120514, 120538), (120540, 120570), (120572, 120596), (120598, 120628),
   (120630, 120654), (120656, 120686), (120688, 120712), (120714, 120744), (120746, 120770),
   (120772, 120779), (120782, 120831), (122624, 122654), (123136, 123180), (123191, 123197),
   (123200, 123209), (123214, 123214), (123536, 123565), (123584, 123627), (123632, 123641),
   (124896, 124902), (124904, 124907), (124909, 124910), (124912, 124926), (124928, 125124),
   (125127, 125135), (125184, 125251), (125259, 125259), (125264, 125273), (126065, 126123),
   (126125, 126127), (126129, 126132), (126209, 126253), (126255, 126269), (126464, 126467),
   (126469, 126495), (126497, 126498), (126500, 126500), (126503, 126503), (126505, 126514),
   (126516, 126519), (126521, 126521), (126523, 126523), (126530, 126530), (126535, 126535),
   (126537, 126537), (126539, 126539), (126541, 126543), (126545, 126546), (126548, 126548),
   (126551, 126551), (126553, 126553), (126555, 126555), (126557, 126557), (126559, 126559),
   (126561, 126562), (126564, 126564), (126567, 126570), (126572, 126578), (126580, 126583),
   (126585, 126588), (126590, 126590), (126592, 126601), (126603, 126619), (126625, 126627),
   (126629, 126633), (126635, 126651), (127232, 127244), (130032, 130041), (131072, 173791),
   (173824, 177976), (177984, 178205), (178208, 183969), (183984, 191456), (194560, 195101),
   (196608, 201546)]

/-- Python `\w` on `str`, as used by the word boundaries `\b` in
`ACCESS_MODIFIER` and `READONLY`: a Unicode alphanumeric or underscore. -/
def isWordChar (c : Char) : Bool :=
  wordRanges.any (fun p => p.1 ≤ c.toNat && c.toNat ≤ p.2)

/-- The character class `[A-Za-z0-9_\[\]\|?<>{}()\.]` of `TYPE_ANNOTATION`
(explicit ASCII ranges in the source pattern). -/
def isAnnotChar (c : Char) : Bool :=
  (('A' ≤ c && c ≤ 'Z') || ('a' ≤ c && c ≤ 'z') || ('0' ≤ c && c ≤ '9')) ||
  c == '_' || c == '[' || c == ']' || c == '|' || c == '?' ||
  c == '<' || c == '>' || c == '\x7b' || c == '\x7d' ||
  c == '(' || c == ')' || c == '.'

/-- The keyword `public`. -/
def kwPublic : List Char := ['p', 'u', 'b', 'l', 'i', 'c']

/-- The keyword `private`. -/
def kwPrivate : List Char := ['p', 'r', 'i', 'v', 'a', 't', 'e']

/-- The keyword `protected`. -/
def kwProtected : List Char := ['p', 'r', 'o', 't', 'e', 'c', 't', 'e', 'd']

/-- The keyword `readonly`. -/
def kwReadonly : List Char := ['r', 'e', 'a', 'd', 'o', 'n', 'l', 'y']

/-- The access-modifier alternatives, in the order they appear in the
pattern `\b(public|private|protected)\s+`. -/
def accessKws : List (List Char) := [kwPublic, kwPrivate, kwProtected]

/-- Match `K\s+` at the head of `s` (the keyword `K` followed by one or more
whitespace characters, the run taken greedily); return the remainder of the
string after the match. -/
def kwMatchAt (K : List Char) (s : List Char) : Option (List Char) :=
  if K.isPrefixOf s then
    match s.drop K.length with
    | [] => none
    | c :: rest => if isPySpace c then some ((c :: rest).dropWhile isPySpace) else none
  else none

/-- Match of `ACCESS_MODIFIER = \b(public|private|protected)\s+` at the head
of `s`; the flag `b` says whether a word boundary holds before the head of
`s` (i.e. the previous character is not a word character, or `s` is at the
start of the line). -/
def ACCESS_MODIFIER (b : Bool) (s : List Char) : Option (List Char) :=
  if b then
    match kwMatchAt kwPublic s with
    | some t => some t
    | none =>
      match kwMatchAt kwPrivate s with
      | some t => some t
      | none => kwMatchAt kwProtected s
  else none

/-- Match of `READONLY = \breadonly\s+` at the head of `s`. -/
def READONLY (b : Bool) (s : List Char) : Option (List Char) :=
  if b then kwMatchAt kwReadonly s else none

/-- Match of `GENERICS = <[^>]+>` at the head of `s`: an opening angle
bracket, a nonempty run of characters other than `>`, and a closing angle
bracket.  The boundary flag is ignored (the pattern has no `\b`). -/
def GENERICS (_ : Bool) (s : List Char) : Option (List Char) :=
  match s with
  | '<' :: rest =>
    if (rest.takeWhile (fun c => c != '>')).isEmpty then none
    else
      match rest.dropWhile (fun c => c != '>') with
      | '>' :: tail => some tail
      | _ => none
  | _ => none

/-- Match of `TYPE_ANNOTATION = (:\s*[A-Za-z0-9_\[\]\|?<>{}()\.]+)` at the
head of `s`: a colon, an optional whitespace run, and a nonempty run of
class characters (both runs greedy; no whitespace character is a class
character, so greedy matching never needs to backtrack). -/
def TYPE_ANNOT (_ : Bool) (s : List Char) : Option (List Char) :=
  match s with
  | ':' :: rest =>
    if ((rest.dropWhile isPySpace).takeWhile isAnnotChar).isEmpty then none
    else some ((rest.dropWhile isPySpace).dropWhile isAnnotChar)
  | _ => none

/-- Fueled model of `pattern.sub("", s)`: scan left to right; at each
position, if the pattern matches, delete the match and continue after it,
otherwise keep the character.  `b` tracks whether the previous character is
a non-word character (so a `\b` holds before the current position; every
deleted match ends in a non-word character, so the flag becomes `true`
after a deletion).  One unit of fuel is spent per scanning step, and every
step consumes at least one character, so fuel `s.length` always suffices. -/
def reSubFuel (m : Bool → List Char → Option (List Char)) :
    Nat → Bool → List Char → List Char
  | 0, _, s => s
  | _ + 1, _, [] => []
  | n + 1, b, c :: cs =>
    match m b (c :: cs) with
    | some t => reSubFuel m n true t
    | none => c :: reSubFuel m n (!isWordChar c) cs

/-- Model of `pattern.sub("", s)` for a pattern embedded as the matcher `m`. -/
def reSub (m : Bool → List Char → Option (List Char)) (s : List Char) : List Char :=
  reSubFuel m s.length true s

/-- The function `_strip_line`: the four substitutions applied in the order they appear
in the source (`ACCESS_MODIFIER`, `READONLY`, `GENERICS`,
`TYPE_ANNOTATION`). -/
def _strip_line (line : List Char) : List Char :=
  let line1 := reSub ACCESS_MODIFIER line
  let line2 := reSub READONLY line1
  let line3 := reSub GENERICS line2
  let line4 := reSub TYPE_ANNOT line3
  line4

/-- The function `_strip_line` lifted to `String`. -/
def stripLineStr (s : String) : String :=
  ⟨_strip_line s.data⟩

/-- Does the pattern embedded as `m` match anywhere in `s`, when the
boundary flag at the head of `s` is `b`?  (`re.search`-style test, used to
state "the line contains an occurrence of the pattern".) -/
def hasMatchB (m : Bool → List Char → Option (List Char)) :
    Bool → List Char → Bool
  | _, [] => false
  | b, c :: cs => (m b (c :: cs)).isSome || hasMatchB m (!isWordChar c) cs

/-- The loop of `main`: `for raw in stdin: stdout.write(_strip_line(raw))`,
with the text written so far as explicit state. -/
def mainLoop : List (List Char) → List Char → List Char
  | [], out => out
  | raw :: rest, out => mainLoop rest (out ++ _strip_line raw)

/-- The function `main(stdin, stdout)`: the text written to `stdout` when the iterable
`stdin` yields the given lines. -/
def main (stdinLines : List (List Char)) : List Char :=
  mainLoop stdinLines []

/-- Running the script under `if __name__ == "__main__":` — `main` is run
on the input lines and the interpreter exits normally (exit code 0); no
operation in `main` or `_strip_line` can raise. -/
def runScript (stdinLines : List (List Char)) : List Char × Nat :=
  (main stdinLines, 0)

/-- Predicate: `t` is a suffix of `s`. -/
def SuffixOf (t s : List Char) : Prop := ∃ u, s = u ++ t

/-- The last character of a list, by structural recursion. -/
def lastChar : List Char → Option Char
  | [] => none
  | [c] => some c
  | _ :: c :: cs => lastChar (c :: cs)

/-- Does the list contain a `>` character? -/
def hasGt : List Char → Bool
  | [] => false
  | c :: r => c == '>' || hasGt r

/-- Invariant of the text after an opening angle bracket: either the very
next character closes it immediately (empty interior, so `GENERICS` cannot
match) or no closing bracket occurs at all. -/
def ltHead : List Char → Bool
  | [] => true
  | d :: r => d == '>' || !hasGt (d :: r)

/-- Invariant of a string in which `GENERICS` can never match: every `<` is
immediately followed by `>` or has no `>` anywhere after it. -/
def ltOk : List Char → Bool
  | [] => true
  | c :: r => (!(c == '<') || ltHead r) && ltOk r

end TsFilter

/-! ## Model of `docs/source/conf.py` (the Sphinx configuration) -/

namespace DocsConf

/-- The result of evaluating the MyST-extension block of
`docs/source/conf.py` (lines 42-58): the final value of
`myst_enable_extensions` and the warnings emitted while loading. -/
structure MystSetup where
  myst_enable_extensions : List String
  warnings : List String

/-- Value of `_myst_extensions` before the optional-dependency check. -/
def mystBaseExtensions : List String := ["colon_fence", "substitution"]

/-- The warning emitted when `linkify_it` cannot be imported. -/
def linkifyWarning : String :=
  "linkify-it-py is not installed; MyST linkify support is disabled. Install linkify-it-py to enable automatic URL linking."

/-- Lines 42-58 of `docs/source/conf.py`: start from the base extensions;
if `importlib.util.find_spec(\x22linkify_it\x22)` succeeds append
`\x22linkify\x22`, otherwise emit a warning.  `linkify_available` abstracts
the `find_spec` test. -/
def loadMystSetup (linkify_available : Bool) : MystSetup :=
  if linkify_available then
    { myst_enable_extensions := mystBaseExtensions ++ ["linkify"], warnings := [] }
  else
    { myst_enable_extensions := mystBaseExtensions, warnings := [linkifyWarning] }

/-- The environment `_generate_typedoc` runs in: the `TYPEDOC_SKIP`
environment variable, whether `typedoc.json` exists, whether a TypeDoc
command can be resolved, whether `subprocess.run` raises `OSError`, and
whether `docs/typedoc/index.html` exists after the subprocess step
(resp. without it having run). -/
structure TypedocEnv where
  typedoc_skip : Bool
  config_exists : Bool
  command_available : Bool
  run_raises : Bool
  index_after_run : Bool
  index_before : Bool

/-- Model of `_generate_typedoc()` (lines 84-105): returns its boolean result paired
with whether `index.html` exists once the function has returned. -/
def _generate_typedoc (e : TypedocEnv) : Bool × Bool :=
  if e.typedoc_skip then (false, e.index_before)
  else if !e.config_exists then (false, e.index_before)
  else if !e.command_available then (false, e.index_before)
  else if e.run_raises then (false, e.index_after_run)
  else (e.index_after_run, e.index_after_run)

/-- Whether `docs/typedoc/index.html` exists after the generation step. -/
def fsAfterGeneration (e : TypedocEnv) : Bool := (_generate_typedoc e).2

/-- Line 108-109: `_generate_typedoc()` is run for its effect (its return
value is discarded) and `have_typedoc` re-checks `_typedoc_index.exists()`
on the resulting filesystem state. -/
def have_typedoc (e : TypedocEnv) : Bool := fsAfterGeneration e

/-- The slice of the Sphinx application state touched by `setup`: the
registered config values (name and default) and the value of the
`have_typedoc` config attribute. -/
structure SphinxApp where
  registered_values : List (String × Bool)
  config_have_typedoc : Bool

/-- Model of `setup(app)` (lines 117-124): register the config value `have_typedoc`
with default `False`, then assign the computed value. -/
def setup (hv : Bool) (app : SphinxApp) : SphinxApp :=
  { registered_values := app.registered_values ++ [("have_typedoc", false)],
    config_have_typedoc := hv }

end DocsConf

namespace TsFilter

/-! ## List helpers -/

theorem suffixOf_refl (s : List Char) : SuffixOf s s := ⟨[], rfl⟩

theorem suffixOf_trans {t s r : List Char} (h₁ : SuffixOf t s) (h₂ : SuffixOf s r) :
    SuffixOf t r := by
  obtain ⟨u, rfl⟩ := h₁
  obtain ⟨v, rfl⟩ := h₂
  exact ⟨v ++ u, by rw [List.append_assoc]⟩

theorem suffixOf_tail (c : Char) (t : List Char) : SuffixOf t (c :: t) := ⟨[c], rfl⟩

theorem suffixOf_drop (s : List Char) (n : Nat) : SuffixOf (s.drop n) s :=
  ⟨s.take n, (List.take_append_drop n s).symm⟩

theorem suffixOf_dropWhile (p : Char → Bool) (s : List Char) :
    SuffixOf (s.dropWhile p) s :=
  ⟨s.takeWhile p, (List.takeWhile_append_dropWhile p s).symm⟩

theorem suffixOf_length {t s : List Char} (h : SuffixOf t s) : t.length ≤ s.length := by
  obtain ⟨u, rfl⟩ := h
  simp

theorem suffixOf_sublist {t s : List Char} (h : SuffixOf t s) : t.Sublist s := by
  obtain ⟨u, rfl⟩ := h
  exact List.sublist_append_right u t

theorem suffixOf_mem {t s : List Char} {c : Char} (h : SuffixOf t s) (hc : c ∈ t) :
    c ∈ s := by
  obtain ⟨u, rfl⟩ := h
  exact List.mem_append_right u hc

theorem lastChar_cons (c : Char) {l : List Char} (h : l ≠ []) :
    lastChar (c :: l) = lastChar l := by
  cases l with
  | nil => exact absurd rfl h
  | cons d t => rfl

theorem lastChar_mem : ∀ (l : List Char) (c : Char), lastChar l = some c → c ∈ l := by
  intro l
  induction l with
  | nil => intro c h; simp [lastChar] at h
  | cons a l' ih =>
    intro c h
    cases l' with
    | nil =>
      simp [lastChar] at h
      simp [h]
    | cons b t =>
      rw [lastChar_cons a (by simp)] at h
      exact List.mem_cons_of_mem a (ih c h)

theorem suffixOf_lastChar {t s : List Char} (h : SuffixOf t s) (ht : t ≠ []) :
    lastChar s = lastChar t := by
  obtain ⟨u, rfl⟩ := h
  induction u with
  | nil => rfl
  | cons x u' ih =>
    rw [List.cons_append, lastChar_cons x (by simp [ht])]
    exact ih

theorem ipo_exists : ∀ (p s : List Char), p.isPrefixOf s = true ↔ ∃ t, s = p ++ t := by
  intro p
  induction p with
  | nil => intro s; simp [List.isPrefixOf]
  | cons a as ih =>
    intro s
    cases s with
    | nil => simp [List.isPrefixOf]
    | cons b bs =>
      simp only [List.isPrefixOf, Bool.and_eq_true, beq_iff_eq, ih, List.cons_append,
        List.cons.injEq]
      constructor
      · rintro ⟨rfl, t, rfl⟩
        exact ⟨t, rfl, rfl⟩
      · rintro ⟨t, rfl, rfl⟩
        exact ⟨rfl, t, rfl⟩

theorem append_split_le :
    ∀ (a b c d : List Char), a ++ b = c ++ d → a.length ≤ c.length →
      ∃ e, c = a ++ e ∧ b = e ++ d := by
  intro a
  induction a with
  | nil =>
    intro b c d h _
    exact ⟨c, rfl, h⟩
  | cons x a' ih =>
    intro b c d h hl
    cases c with
    | nil => simp at hl
    | cons y c' =>
      rw [List.cons_append, List.cons_append] at h
      simp only [List.cons.injEq] at h
      obtain ⟨rfl, h2⟩ := h
      simp only [List.length_cons] at hl
      obtain ⟨e, rfl, rfl⟩ := ih b c' d h2 (by omega)
      exact ⟨e, rfl, rfl⟩

theorem dropWhile_append_pos (p : Char → Bool) :
    ∀ (l r : List Char), l.dropWhile p ≠ [] →
      (l ++ r).dropWhile p = l.dropWhile p ++ r := by
  intro l
  induction l with
  | nil => intro r h; exact absurd rfl h
  | cons c l' ih =>
    intro r h
    by_cases hc : p c
    · rw [List.dropWhile_cons, if_pos hc] at h
      rw [List.cons_append, List.dropWhile_cons, if_pos hc, List.dropWhile_cons, if_pos hc]
      exact ih r h
    · rw [List.cons_append, List.dropWhile_cons, if_neg hc, List.dropWhile_cons, if_neg hc,
        List.cons_append]

theorem dropWhile_append_nil (p : Char → Bool) :
    ∀ (l r : List Char), l.dropWhile p = [] →
      (l ++ r).dropWhile p = r.dropWhile p := by
  intro l
  induction l with
  | nil => intro r _; rfl
  | cons c l' ih =>
    intro r h
    by_cases hc : p c
    · rw [List.dropWhile_cons, if_pos hc] at h
      rw [List.cons_append, List.dropWhile_cons, if_pos hc]
      exact ih r h
    · rw [List.dropWhile_cons, if_neg hc] at h
      exact absurd h (by simp)

/-! ## Matcher facts: every match consumes at least one character and the
remainder is a suffix of the input. -/

theorem kwMatchAt_some {K s t : List Char} (h : kwMatchAt K s = some t) :
    SuffixOf t s ∧ t.length < s.length := by
  unfold kwMatchAt at h
  split at h
  · split at h
    · exact absurd h (by simp)
    · next c rest hd =>
      split at h
      · next hc =>
        simp only [Option.some.injEq] at h
        rw [List.dropWhile_cons, if_pos hc] at h
        subst h
        have hsfx : SuffixOf (rest.dropWhile isPySpace) s :=
          suffixOf_trans (suffixOf_dropWhile isPySpace rest)
            (suffixOf_trans (suffixOf_tail c rest) (hd ▸ suffixOf_drop s K.length))
        refine ⟨hsfx, ?_⟩
        have h1 : (rest.dropWhile isPySpace).length ≤ rest.length :=
          suffixOf_length (suffixOf_dropWhile _ _)
        have h2 : (s.drop K.length).length = s.length - K.length := List.length_drop _ _
        rw [hd] at h2
        simp only [List.length_cons] at h2
        omega
      · exact absurd h (by simp)
  · exact absurd h (by simp)

theorem ACCESS_MODIFIER_some {b : Bool} {s t : List Char}
    (h : ACCESS_MODIFIER b s = some t) : SuffixOf t s ∧ t.length < s.length := by
  unfold ACCESS_MODIFIER at h
  split at h
  · split at h
    · next t1 h1 =>
      simp only [Option.some.injEq] at h
      subst h
      exact kwMatchAt_some h1
    · split at h
      · next t2 h2 =>
        simp only [Option.some.injEq] at h
        subst h
        exact kwMatchAt_some h2
      · exact kwMatchAt_some h
  · exact absurd h (by simp)

theorem READONLY_some {b : Bool} {s t : List Char}
    (h : READONLY b s = some t) : SuffixOf t s ∧ t.length < s.length := by
  unfold READONLY at h
  by_cases hb : b
  · rw [if_pos hb] at h
    exact kwMatchAt_some h
  · rw [if_neg hb] at h
    exact absurd h (by simp)

theorem GENERICS_some {b : Bool} {s t : List Char}
    (h : GENERICS b s = some t) : SuffixOf t s ∧ t.length < s.length := by
  unfold GENERICS at h
  split at h
  · next rest =>
    split at h
    · exact absurd h (by simp)
    · split at h
      · next tail hd =>
        simp only [Option.some.injEq] at h
        subst h
        have hsfx : SuffixOf tail rest :=
          suffixOf_trans (suffixOf_tail '>' tail)
            (hd ▸ suffixOf_dropWhile (fun c => c != '>') rest)
        constructor
        · exact suffixOf_trans hsfx (suffixOf_tail '<' rest)
        · have := suffixOf_length hsfx
          simp only [List.length_cons]
          omega
      · exact absurd h (by simp)
  · exact absurd h (by simp)

theorem TYPE_ANNOT_some {b : Bool} {s t : List Char}
    (h : TYPE_ANNOT b s = some t) : SuffixOf t s ∧ t.length < s.length := by
  unfold TYPE_ANNOT at h
  split at h
  · next rest =>
    split at h
    · exact absurd h (by simp)
    · simp only [Option.some.injEq] at h
      subst h
      have hsfx : SuffixOf ((rest.dropWhile isPySpace).dropWhile isAnnotChar) rest :=
        suffixOf_trans (suffixOf_dropWhile isAnnotChar _) (suffixOf_dropWhile isPySpace rest)
      constructor
      · exact suffixOf_trans hsfx (suffixOf_tail ':' rest)
      · have := suffixOf_length hsfx
        simp only [List.length_cons]
        omega
  · exact absurd h (by simp)

/-! ## Scanner facts -/

theorem reSubFuel_nil (m : Bool → List Char → Option (List Char)) (n : Nat) (b : Bool) :
    reSubFuel m n b [] = [] := by
  cases n <;> rfl

theorem reSubFuel_cons (m : Bool → List Char → Option (List Char)) (n : Nat) (b : Bool)
    (c : Char) (cs : List Char) :
    reSubFuel m (n + 1) b (c :: cs) =
      match m b (c :: cs) with
      | some t => reSubFuel m n true t
      | none => c :: reSubFuel m n (!isWordChar c) cs := rfl

/-- With enough fuel, the scanner does not depend on the exact fuel value,
provided every match strictly shrinks the string. -/
theorem reSubFuel_fuel (m : Bool → List Char → Option (List Char))
    (hm : ∀ b s t, m b s = some t → t.length < s.length) :
    ∀ n n' (b : Bool) (s : List Char), s.length ≤ n → s.length ≤ n' →
      reSubFuel m n b s = reSubFuel m n' b s := by
  intro n
  induction n with
  | zero =>
    intro n' b s h _
    have : s = [] := List.length_eq_zero.mp (Nat.le_zero.mp h)
    subst this
    rw [reSubFuel_nil, reSubFuel_nil]
  | succ n ih =>
    intro n' b s h h'
    cases s with
    | nil => rw [reSubFuel_nil, reSubFuel_nil]
    | cons c cs =>
      cases n' with
      | zero => simp at h'
      | succ n'' =>
        rw [reSubFuel_cons, reSubFuel_cons]
        cases hm' : m b (c :: cs) with
        | some t =>
          have hlt := hm _ _ _ hm'
          simp only [List.length_cons] at h h' hlt
          exact ih n'' true t (by omega) (by omega)
        | none =>
          simp only [List.length_cons] at h h'
          rw [ih n'' (!isWordChar c) cs (by omega) (by omega)]

/-- The scanner output is a sublist of its input: substitution by the empty
string only deletes characters. -/
theorem reSubFuel_sublist (m : Bool → List Char → Option (List Char))
    (hm : ∀ b s t, m b s = some t → SuffixOf t s) :
    ∀ n (b : Bool) (s : List Char), (reSubFuel m n b s).Sublist s := by
  intro n
  induction n with
  | zero => intro b s; exact List.Sublist.refl s
  | succ n ih =>
    intro b s
    cases s with
    | nil => rw [reSubFuel_nil]
    | cons c cs =>
      rw [reSubFuel_cons]
      cases hm' : m b (c :: cs) with
      | some t => exact List.Sublist.trans (ih true t) (suffixOf_sublist (hm _ _ _ hm'))
      | none => exact List.Sublist.cons₂ c (ih (!isWordChar c) cs)

/-- If the pattern matches nowhere in `s`, the substitution leaves `s`
unchanged. -/
theorem reSubFuel_id (m : Bool → List Char → Option (List Char)) :
    ∀ n (b : Bool) (s : List Char), hasMatchB m b s = false → reSubFuel m n b s = s := by
  intro n
  induction n with
  | zero => intro b s _; rfl
  | succ n ih =>
    intro b s hno
    cases s with
    | nil => rw [reSubFuel_nil]
    | cons c cs =>
      rw [reSubFuel_cons]
      cases hm' : m b (c :: cs) with
      | some t => simp [hasMatchB, hm'] at hno
      | none =>
        simp only [hasMatchB, hm', Option.isSome_none, Bool.false_or] at hno
        rw [ih (!isWordChar c) cs hno]

theorem reSub_sublist_access (s : List Char) : (reSub ACCESS_MODIFIER s).Sublist s :=
  reSubFuel_sublist _ (fun _ _ _ h => (ACCESS_MODIFIER_some h).1) _ _ _

theorem reSub_sublist_readonly (s : List Char) : (reSub READONLY s).Sublist s :=
  reSubFuel_sublist _ (fun _ _ _ h => (READONLY_some h).1) _ _ _

theorem reSub_sublist_generics (s : List Char) : (reSub GENERICS s).Sublist s :=
  reSubFuel_sublist _ (fun _ _ _ h => (GENERICS_some h).1) _ _ _

theorem reSub_sublist_annot (s : List Char) : (reSub TYPE_ANNOT s).Sublist s :=
  reSubFuel_sublist _ (fun _ _ _ h => (TYPE_ANNOT_some h).1) _ _ _

theorem mainLoop_eq : ∀ (ls : List (List Char)) (out : List Char),
    mainLoop ls out = out ++ (ls.map _strip_line).flatten := by
  intro ls
  induction ls with
  | nil => intro out; simp [mainLoop]
  | cons raw rest ih =>
    intro out
    rw [mainLoop, ih]
    simp [List.append_assoc]

/-! ## Removal of a boundary keyword occurrence (for the access-modifier
claim): deleting the occurrence before scanning gives the same result as
scanning the original line. -/

theorem drop_append_self : ∀ (K Z : List Char), (K ++ Z).drop K.length = Z := by
  intro K
  induction K with
  | nil => intro Z; rfl
  | cons k K' ih =>
    intro Z
    simp only [List.cons_append, List.length_cons, List.drop_succ_cons]
    exact ih Z

theorem lastChar_ne_nil : ∀ (l : List Char), l ≠ [] → ∃ x, lastChar l = some x := by
  intro l
  induction l with
  | nil => intro h; exact absurd rfl h
  | cons c l' ih =>
    intro _
    cases l' with
    | nil => exact ⟨c, rfl⟩
    | cons d t =>
      obtain ⟨x, hx⟩ := ih (by simp)
      exact ⟨x, by rw [lastChar_cons c (by simp)]; exact hx⟩

theorem dropWhile_all (p : Char → Bool) :
    ∀ l : List Char, (∀ c ∈ l, p c = true) → l.dropWhile p = [] := by
  intro l
  induction l with
  | nil => intro _; rfl
  | cons c l' ih =>
    intro h
    rw [List.dropWhile_cons, if_pos (h c (by simp))]
    exact ih (fun d hd => h d (by simp [hd]))

theorem dropWhile_head_false (p : Char → Bool) :
    ∀ l : List Char, (∀ c, l.head? = some c → p c = false) → l.dropWhile p = l := by
  intro l h
  cases l with
  | nil => rfl
  | cons c l' =>
    rw [List.dropWhile_cons, if_neg (by simp [h c rfl])]

/-- The three access keywords are nonempty words made of word characters,
whose head is not whitespace. -/
theorem accessKw_facts : ∀ K ∈ accessKws,
    K ≠ [] ∧ (∀ c ∈ K, isWordChar c = true) ∧
      (∀ c, K.head? = some c → isPySpace c = false) := by
  decide

/-- If a keyword made of word characters is a prefix of `X ++ R` and `X` is
nonempty with a non-word last character, the keyword lies strictly inside
`X`. -/
theorem kw_inside {K X R : List Char}
    (hKw : ∀ c ∈ K, isWordChar c = true)
    (hX : X ≠ [])
    (hlast : ∀ x, lastChar X = some x → isWordChar x = false)
    (hp : K.isPrefixOf (X ++ R) = true) :
    ∃ X₁, X = K ++ X₁ ∧ X₁ ≠ [] := by
  obtain ⟨t, ht⟩ := (ipo_exists _ _).mp hp
  obtain ⟨x, hx⟩ := lastChar_ne_nil X hX
  have hxword := hlast x hx
  rcases Nat.le_total X.length K.length with hle | hle
  · obtain ⟨e, he, _⟩ := append_split_le X R K t ht hle
    have : x ∈ K := he ▸ List.mem_append_left e (lastChar_mem X x hx)
    exact absurd (hKw x this) (by simp [hxword])
  · obtain ⟨e, he, _⟩ := append_split_le K t X R ht.symm hle
    refine ⟨e, he, ?_⟩
    intro henil
    subst henil
    have hXK : X = K := by simpa using he
    have : x ∈ K := hXK ▸ lastChar_mem X x hx
    exact absurd (hKw x this) (by simp [hxword])

/-- Behaviour of a keyword match at a position followed (beyond a nonempty
non-word-terminated block `X`) by a removable occurrence `kw ++ w`: the
matcher behaves the same with and without the occurrence, up to landing on
the junction. -/
theorem kwMatchAt_junction
    {K X kw w v : List Char}
    (hKw : ∀ c ∈ K, isWordChar c = true)
    (hX : X ≠ [])
    (hlast : ∀ x, lastChar X = some x → isWordChar x = false)
    (hkwne : kw ≠ [])
    (hkwhead : ∀ c, kw.head? = some c → isPySpace c = false)
    (hv : ∀ c, v.head? = some c → isPySpace c = false) :
    (kwMatchAt K (X ++ (kw ++ (w ++ v))) = none ∧ kwMatchAt K (X ++ v) = none) ∨
    (∃ Y, Y ≠ [] ∧ SuffixOf Y X ∧
      kwMatchAt K (X ++ (kw ++ (w ++ v))) = some (Y ++ (kw ++ (w ++ v))) ∧
      kwMatchAt K (X ++ v) = some (Y ++ v)) ∨
    (kwMatchAt K (X ++ (kw ++ (w ++ v))) = some (kw ++ (w ++ v)) ∧
      kwMatchAt K (X ++ v) = some v) := by
  by_cases hp : K.isPrefixOf (X ++ (kw ++ (w ++ v))) = true
  · obtain ⟨X₁, hXeq, hX₁⟩ := kw_inside hKw hX hlast hp
    obtain ⟨d, X₂, rfl⟩ : ∃ d X₂, X₁ = d :: X₂ := by
      cases X₁ with
      | nil => exact absurd rfl hX₁
      | cons d X₂ => exact ⟨d, X₂, rfl⟩
    subst hXeq
    have hpR : K.isPrefixOf ((K ++ (d :: X₂)) ++ v) = true :=
      (ipo_exists _ _).mpr ⟨(d :: X₂) ++ v, by simp⟩
    have hdropL : ((K ++ (d :: X₂)) ++ (kw ++ (w ++ v))).drop K.length =
        d :: (X₂ ++ (kw ++ (w ++ v))) := by
      rw [List.append_assoc]
      rw [drop_append_self]
      simp
    have hdropR : ((K ++ (d :: X₂)) ++ v).drop K.length = d :: (X₂ ++ v) := by
      rw [List.append_assoc]
      rw [drop_append_self]
      simp
    by_cases hd : isPySpace d = true
    · -- the whitespace run after the keyword
      by_cases hX₂ : X₂.dropWhile isPySpace = []
      · -- the run reaches the junction: land exactly on the occurrence
        have hkwZ : ∀ c, (kw ++ (w ++ v)).head? = some c → isPySpace c = false := by
          cases kw with
          | nil => exact absurd rfl hkwne
          | cons k kw' =>
            intro c hc
            simp only [List.cons_append, List.head?_cons, Option.some.injEq] at hc
            exact hc ▸ hkwhead k rfl
        right; right
        constructor
        · unfold kwMatchAt
          rw [if_pos hp, hdropL]
          show (if isPySpace d = true
            then some ((d :: (X₂ ++ (kw ++ (w ++ v)))).dropWhile isPySpace)
            else none) = _
          rw [if_pos hd]
          rw [List.dropWhile_cons, if_pos hd, dropWhile_append_nil _ _ _ hX₂,
            dropWhile_head_false _ _ hkwZ]
        · unfold kwMatchAt
          rw [if_pos hpR, hdropR]
          show (if isPySpace d = true
            then some ((d :: (X₂ ++ v)).dropWhile isPySpace)
            else none) = _
          rw [if_pos hd]
          rw [List.dropWhile_cons, if_pos hd, dropWhile_append_nil _ _ _ hX₂,
            dropWhile_head_false _ _ hv]
      · -- the run stops inside `X`
        right; left
        refine ⟨X₂.dropWhile isPySpace, hX₂, ?_, ?_, ?_⟩
        · exact suffixOf_trans (suffixOf_dropWhile isPySpace X₂)
            ⟨K ++ [d], by simp⟩
        · unfold kwMatchAt
          rw [if_pos hp, hdropL]
          show (if isPySpace d = true
            then some ((d :: (X₂ ++ (kw ++ (w ++ v)))).dropWhile isPySpace)
            else none) = _
          rw [if_pos hd]
          rw [List.dropWhile_cons, if_pos hd, dropWhile_append_pos _ _ _ hX₂]
        · unfold kwMatchAt
          rw [if_pos hpR, hdropR]
          show (if isPySpace d = true
            then some ((d :: (X₂ ++ v)).dropWhile isPySpace)
            else none) = _
          rw [if_pos hd]
          rw [List.dropWhile_cons, if_pos hd, dropWhile_append_pos _ _ _ hX₂]
    · -- no whitespace after the keyword: no match on either side
      left
      constructor
      · unfold kwMatchAt
        rw [if_pos hp, hdropL]
        show (if isPySpace d = true
          then some ((d :: (X₂ ++ (kw ++ (w ++ v)))).dropWhile isPySpace)
          else none) = _
        rw [if_neg hd]
      · unfold kwMatchAt
        rw [if_pos hpR, hdropR]
        show (if isPySpace d = true
          then some ((d :: (X₂ ++ v)).dropWhile isPySpace)
          else none) = _
        rw [if_neg hd]
  · -- the keyword is not a prefix on the left, hence on neither side
    have hpR : ¬K.isPrefixOf (X ++ v) = true := by
      intro hc
      obtain ⟨X₁, hXeq, _⟩ := kw_inside hKw hX hlast hc
      exact hp ((ipo_exists _ _).mpr ⟨X₁ ++ (kw ++ (w ++ v)), by rw [hXeq]; simp⟩)
    constructor
    constructor
    · unfold kwMatchAt
      rw [if_neg hp]
    · unfold kwMatchAt
      rw [if_neg hpR]

theorem ACCESS_MODIFIER_true_eq (s : List Char) :
    ACCESS_MODIFIER true s =
      match kwMatchAt kwPublic s with
      | some t => some t
      | none =>
        match kwMatchAt kwPrivate s with
        | some t => some t
        | none => kwMatchAt kwProtected s := rfl

theorem ACCESS_MODIFIER_false (s : List Char) : ACCESS_MODIFIER false s = none := rfl

theorem kwMatchAt_pub_on_priv (Z : List Char) :
    kwMatchAt kwPublic (kwPrivate ++ Z) = none := rfl

theorem kwMatchAt_pub_on_prot (Z : List Char) :
    kwMatchAt kwPublic (kwProtected ++ Z) = none := rfl

theorem kwMatchAt_priv_on_prot (Z : List Char) :
    kwMatchAt kwPrivate (kwProtected ++ Z) = none := rfl

/-- At the head of `kw ++ (w ++ v)` where `kw` is an access keyword, `w` a
nonempty whitespace run and `v` does not start with whitespace, the
`ACCESS_MODIFIER` pattern matches and consumes exactly `kw ++ w`. -/
theorem ACCESS_at_kw {kw w v : List Char} (hkw : kw ∈ accessKws) (hw : w ≠ [])
    (hwsp : ∀ c ∈ w, isPySpace c = true)
    (hv : ∀ c, v.head? = some c → isPySpace c = false) :
    ACCESS_MODIFIER true (kw ++ (w ++ v)) = some v := by
  have hself : kwMatchAt kw (kw ++ (w ++ v)) = some v := by
    unfold kwMatchAt
    rw [if_pos ((ipo_exists _ _).mpr ⟨w ++ v, rfl⟩), drop_append_self]
    obtain ⟨e, w', rfl⟩ : ∃ e w', w = e :: w' := by
      cases w with
      | nil => exact absurd rfl hw
      | cons e w' => exact ⟨e, w', rfl⟩
    rw [List.cons_append]
    show (if isPySpace e = true
      then some ((e :: (w' ++ v)).dropWhile isPySpace) else none) = some v
    rw [if_pos (hwsp e (by simp))]
    rw [List.dropWhile_cons, if_pos (hwsp e (by simp)),
      dropWhile_append_nil _ _ _ (dropWhile_all _ w' (fun c hc => hwsp c (by simp [hc]))),
      dropWhile_head_false _ _ hv]
  have hkw3 : kw = kwPublic ∨ kw = kwPrivate ∨ kw = kwProtected := by
    simpa [accessKws] using hkw
  rcases hkw3 with rfl | rfl | rfl
  · rw [ACCESS_MODIFIER_true_eq, hself]
  · rw [ACCESS_MODIFIER_true_eq, kwMatchAt_pub_on_priv, hself]
  · rw [ACCESS_MODIFIER_true_eq, kwMatchAt_pub_on_prot, kwMatchAt_priv_on_prot, hself]

/-- Junction behaviour of the full `ACCESS_MODIFIER` alternation. -/
theorem ACCESS_junction {X kw w v : List Char}
    (hkw : kw ∈ accessKws)
    (hX : X ≠ [])
    (hlast : ∀ x, lastChar X = some x → isWordChar x = false)
    (hv : ∀ c, v.head? = some c → isPySpace c = false) :
    (ACCESS_MODIFIER true (X ++ (kw ++ (w ++ v))) = none ∧
      ACCESS_MODIFIER true (X ++ v) = none) ∨
    (∃ Y, Y ≠ [] ∧ SuffixOf Y X ∧
      ACCESS_MODIFIER true (X ++ (kw ++ (w ++ v))) = some (Y ++ (kw ++ (w ++ v))) ∧
      ACCESS_MODIFIER true (X ++ v) = some (Y ++ v)) ∨
    (ACCESS_MODIFIER true (X ++ (kw ++ (w ++ v))) = some (kw ++ (w ++ v)) ∧
      ACCESS_MODIFIER true (X ++ v) = some v) := by
  obtain ⟨hkwne, -, hkwhead⟩ := accessKw_facts kw hkw
  have jpub := @kwMatchAt_junction kwPublic X kw w v
    (accessKw_facts kwPublic (by simp [accessKws])).2.1 hX hlast hkwne hkwhead hv
  have jpriv := @kwMatchAt_junction kwPrivate X kw w v
    (accessKw_facts kwPrivate (by simp [accessKws])).2.1 hX hlast hkwne hkwhead hv
  have jprot := @kwMatchAt_junction kwProtected X kw w v
    (accessKw_facts kwProtected (by simp [accessKws])).2.1 hX hlast hkwne hkwhead hv
  rcases jpub with ⟨e1, e2⟩ | ⟨Y, hY, hYs, e1, e2⟩ | ⟨e1, e2⟩
  · rcases jpriv with ⟨f1, f2⟩ | ⟨Y, hY, hYs, f1, f2⟩ | ⟨f1, f2⟩
    · rcases jprot with ⟨g1, g2⟩ | ⟨Y, hY, hYs, g1, g2⟩ | ⟨g1, g2⟩
      · exact Or.inl ⟨by rw [ACCESS_MODIFIER_true_eq, e1, f1, g1],
          by rw [ACCESS_MODIFIER_true_eq, e2, f2, g2]⟩
      · exact Or.inr (Or.inl ⟨Y, hY, hYs, by rw [ACCESS_MODIFIER_true_eq, e1, f1, g1],
          by rw [ACCESS_MODIFIER_true_eq, e2, f2, g2]⟩)
      · exact Or.inr (Or.inr ⟨by rw [ACCESS_MODIFIER_true_eq, e1, f1, g1],
          by rw [ACCESS_MODIFIER_true_eq, e2, f2, g2]⟩)
    · exact Or.inr (Or.inl ⟨Y, hY, hYs, by rw [ACCESS_MODIFIER_true_eq, e1, f1],
        by rw [ACCESS_MODIFIER_true_eq, e2, f2]⟩)
    · exact Or.inr (Or.inr ⟨by rw [ACCESS_MODIFIER_true_eq, e1, f1],
        by rw [ACCESS_MODIFIER_true_eq, e2, f2]⟩)
  · exact Or.inr (Or.inl ⟨Y, hY, hYs, by rw [ACCESS_MODIFIER_true_eq, e1],
      by rw [ACCESS_MODIFIER_true_eq, e2]⟩)
  · exact Or.inr (Or.inr ⟨by rw [ACCESS_MODIFIER_true_eq, e1],
      by rw [ACCESS_MODIFIER_true_eq, e2]⟩)

theorem reSubFuel_cons_none {m : Bool → List Char → Option (List Char)} {n : Nat}
    {b : Bool} {c : Char} {cs : List Char} (h : m b (c :: cs) = none) :
    reSubFuel m (n + 1) b (c :: cs) = c :: reSubFuel m n (!isWordChar c) cs := by
  rw [reSubFuel_cons, h]

theorem reSubFuel_cons_some {m : Bool → List Char → Option (List Char)} {n : Nat}
    {b : Bool} {c : Char} {cs t : List Char} (h : m b (c :: cs) = some t) :
    reSubFuel m (n + 1) b (c :: cs) = reSubFuel m n true t := by
  rw [reSubFuel_cons, h]

/-- Scanning `X ++ kw ++ w ++ v` (a boundary occurrence of the access
keyword `kw` followed by the whitespace run `w`, preceded by a block `X`
that ends in a non-word character) gives the same result as scanning
`X ++ v`: the occurrence is deleted and nothing else changes. -/
theorem reSub_access_junction
    {kw w v : List Char} (hkw : kw ∈ accessKws)
    (hw : w ≠ []) (hwsp : ∀ c ∈ w, isPySpace c = true)
    (hv : ∀ c, v.head? = some c → isPySpace c = false) :
    ∀ (n m' : Nat) (b : Bool) (X : List Char),
      (∀ x, lastChar X = some x → isWordChar x = false) →
      (X = [] → b = true) →
      (X ++ (kw ++ (w ++ v))).length ≤ n → (X ++ v).length ≤ m' →
      reSubFuel ACCESS_MODIFIER n b (X ++ (kw ++ (w ++ v))) =
        reSubFuel ACCESS_MODIFIER m' b (X ++ v) := by
  have hmAcc : ∀ b s t, ACCESS_MODIFIER b s = some t → t.length < s.length :=
    fun _ _ _ h => (ACCESS_MODIFIER_some h).2
  have hkwne : kw ≠ [] := (accessKw_facts kw hkw).1
  intro n
  induction n with
  | zero =>
    intro m' b X hlast hbX hn hm
    exfalso
    simp only [List.length_append, Nat.le_zero] at hn
    have : kw.length = 0 := by omega
    exact hkwne (List.length_eq_zero.mp this)
  | succ n ih =>
    intro m' b X hlast hbX hn hm
    cases X with
    | nil =>
      have hb : b = true := hbX rfl
      subst hb
      simp only [List.nil_append] at hn hm ⊢
      obtain ⟨k0, kw', rfl⟩ : ∃ k0 kw', kw = k0 :: kw' := by
        cases kw with
        | nil => exact absurd rfl hkwne
        | cons a bs => exact ⟨a, bs, rfl⟩
      have hfire : ACCESS_MODIFIER true ((k0 :: kw') ++ (w ++ v)) = some v :=
        ACCESS_at_kw hkw hw hwsp hv
      rw [List.cons_append] at hfire
      rw [List.cons_append, reSubFuel_cons_some hfire]
      apply reSubFuel_fuel _ hmAcc
      · simp only [List.length_cons, List.length_append] at hn
        omega
      · exact hm
    | cons c X' =>
      cases m' with
      | zero =>
        exfalso
        simp at hm
      | succ m'' =>
        cases b with
        | false =>
          have e1 : ACCESS_MODIFIER false ((c :: X') ++ (kw ++ (w ++ v))) = none := rfl
          have e2 : ACCESS_MODIFIER false ((c :: X') ++ v) = none := rfl
          rw [List.cons_append] at e1 e2
          rw [List.cons_append, List.cons_append,
            reSubFuel_cons_none e1, reSubFuel_cons_none e2]
          congr 1
          refine ih m'' (!isWordChar c) X' ?_ ?_ ?_ ?_
          · intro x hx
            have hX'ne : X' ≠ [] := by
              intro e
              subst e
              simp [lastChar] at hx
            exact hlast x (by rw [lastChar_cons c hX'ne]; exact hx)
          · intro e
            subst e
            have := hlast c rfl
            simp [this]
          · simp only [List.length_append, List.length_cons] at hn ⊢
            omega
          · simp only [List.length_append, List.length_cons] at hm ⊢
            omega
        | true =>
          rcases ACCESS_junction hkw (by simp : (c :: X') ≠ []) hlast hv with
            ⟨e1, e2⟩ | ⟨Y, hY, hYs, e1, e2⟩ | ⟨e1, e2⟩
          · rw [List.cons_append] at e1 e2
            rw [List.cons_append, List.cons_append,
              reSubFuel_cons_none e1, reSubFuel_cons_none e2]
            congr 1
            refine ih m'' (!isWordChar c) X' ?_ ?_ ?_ ?_
            · intro x hx
              have hX'ne : X' ≠ [] := by
                intro e
                subst e
                simp [lastChar] at hx
              exact hlast x (by rw [lastChar_cons c hX'ne]; exact hx)
            · intro e
              subst e
              have := hlast c rfl
              simp [this]
            · simp only [List.length_append, List.length_cons] at hn ⊢
              omega
            · simp only [List.length_append, List.length_cons] at hm ⊢
              omega
          · have hlt1 := (ACCESS_MODIFIER_some e1).2
            have hlt2 := (ACCESS_MODIFIER_some e2).2
            rw [List.cons_append] at e1 e2
            rw [List.cons_append, List.cons_append,
              reSubFuel_cons_some e1, reSubFuel_cons_some e2]
            refine ih m'' true Y ?_ (fun _ => rfl) ?_ ?_
            · intro x hx
              exact hlast x ((suffixOf_lastChar hYs hY).trans hx)
            · omega
            · omega
          · have hlt1 := (ACCESS_MODIFIER_some e1).2
            rw [List.cons_append] at e1 e2
            rw [List.cons_append, List.cons_append,
              reSubFuel_cons_some e1, reSubFuel_cons_some e2]
            obtain ⟨k0, kw', rfl⟩ : ∃ k0 kw', kw = k0 :: kw' := by
              cases kw with
              | nil => exact absurd rfl hkwne
              | cons a bs => exact ⟨a, bs, rfl⟩
            have hfire : ACCESS_MODIFIER true ((k0 :: kw') ++ (w ++ v)) = some v :=
              ACCESS_at_kw hkw hw hwsp hv
            rw [List.cons_append] at hfire
            cases n with
            | zero =>
              exfalso
              simp only [List.length_append, List.length_cons] at hn
              omega
            | succ n₃ =>
              rw [List.cons_append, reSubFuel_cons_some hfire]
              apply reSubFuel_fuel _ hmAcc
              · simp only [List.length_append, List.length_cons] at hn
                omega
              · simp only [List.length_append, List.length_cons] at hm
                omega

/-! ## The bracket invariant: after the `GENERICS` pass no bracketed
segment remains, and the `TYPE_ANNOTATION` pass cannot create one. -/

theorem hasGt_eq_false_iff : ∀ l : List Char, hasGt l = false ↔ '>' ∉ l := by
  intro l
  induction l with
  | nil => simp [hasGt]
  | cons c r ih =>
    simp only [hasGt, Bool.or_eq_false_iff, beq_eq_false_iff_ne, ih, List.mem_cons]
    constructor
    · rintro ⟨h1, h2⟩ h
      rcases h with h | h
      · exact h1 h.symm
      · exact h2 h
    · intro h
      exact ⟨fun e => h (Or.inl e.symm), fun e => h (Or.inr e)⟩

theorem hasGt_false_of_sublist {l' l : List Char} (hs : l'.Sublist l)
    (h : hasGt l = false) : hasGt l' = false := by
  rw [hasGt_eq_false_iff] at h ⊢
  exact fun hm => h (hs.subset hm)

theorem dropWhile_gt_nil : ∀ l : List Char,
    l.dropWhile (fun c => c != '>') = [] → hasGt l = false := by
  intro l
  induction l with
  | nil => intro _; rfl
  | cons c r ih =>
    intro h
    by_cases hc : (c != '>') = true
    · rw [List.dropWhile_cons, if_pos hc] at h
      simp only [hasGt, Bool.or_eq_false_iff]
      refine ⟨?_, ih h⟩
      simpa using hc
    · rw [List.dropWhile_cons, if_neg hc] at h
      exact absurd h (by simp)

theorem hasGt_false_dropWhile : ∀ l : List Char,
    hasGt l = false → l.dropWhile (fun c => c != '>') = [] := by
  intro l
  induction l with
  | nil => intro _; rfl
  | cons c r ih =>
    intro h
    simp only [hasGt, Bool.or_eq_false_iff, beq_eq_false_iff_ne] at h
    rw [List.dropWhile_cons, if_pos (by simpa using h.1)]
    exact ih ((hasGt_eq_false_iff r).mpr ((hasGt_eq_false_iff r).mp h.2))

theorem dropWhile_gt_head : ∀ (l : List Char) (d : Char) (tail : List Char),
    l.dropWhile (fun c => c != '>') = d :: tail → d = '>' := by
  intro l
  induction l with
  | nil => intro d tail h; exact absurd h (by simp)
  | cons c r ih =>
    intro d tail h
    by_cases hc : (c != '>') = true
    · rw [List.dropWhile_cons, if_pos hc] at h
      exact ih d tail h
    · rw [List.dropWhile_cons, if_neg hc] at h
      have : c = '>' := by simpa using hc
      cases h
      exact this

theorem ltOk_cons (c : Char) (r : List Char) :
    ltOk (c :: r) = ((!(c == '<') || ltHead r) && ltOk r) := rfl

theorem ltOk_tail {c : Char} {r : List Char} (h : ltOk (c :: r) = true) :
    ltOk r = true := by
  rw [ltOk_cons, Bool.and_eq_true] at h
  exact h.2

theorem ltOk_suffixOf {t s : List Char} (hs : SuffixOf t s) (h : ltOk s = true) :
    ltOk t = true := by
  obtain ⟨u, rfl⟩ := hs
  induction u with
  | nil => exact h
  | cons x u' ih => exact ih (ltOk_tail h)

theorem ltHead_of_no_gt {l : List Char} (h : hasGt l = false) : ltHead l = true := by
  cases l with
  | nil => rfl
  | cons d r => simp [ltHead, h]

/-- The pattern `GENERICS` never matches at a string whose head is not `<`. -/
theorem GENERICS_ne_lt {c : Char} (hc : c ≠ '<') (b : Bool) (cs : List Char) :
    GENERICS b (c :: cs) = none := by
  unfold GENERICS
  split
  · next r heq =>
    injection heq with h1 _
    exact absurd h1 hc
  · rfl

/-- The pattern `GENERICS` never matches at a string headed by `>`. -/
theorem GENERICS_gt_none (b : Bool) (x : List Char) : GENERICS b ('>' :: x) = none := rfl

/-- The pattern `TYPE_ANNOT` never matches at a string headed by `>`. -/
theorem TYPE_ANNOT_gt_none (b : Bool) (x : List Char) : TYPE_ANNOT b ('>' :: x) = none := rfl

/-- If `GENERICS` fails to match at `'<' :: cs`, the bracket-head invariant
holds for `cs`: the next character closes immediately or no `>` follows. -/
theorem GENERICS_none_ltHead {b : Bool} {cs : List Char}
    (h : GENERICS b ('<' :: cs) = none) : ltHead cs = true := by
  simp only [GENERICS] at h
  by_cases he : (cs.takeWhile (fun c => c != '>')).isEmpty
  · cases cs with
    | nil => rfl
    | cons d r =>
      by_cases hd : (d != '>') = true
      · rw [List.takeWhile_cons, if_pos hd] at he
        exact absurd he (by simp)
      · have : d = '>' := by simpa using hd
        subst this
        simp [ltHead]
  · rw [if_neg he] at h
    rcases hd : cs.dropWhile (fun c => c != '>') with _ | ⟨d, tail⟩
    · exact ltHead_of_no_gt (dropWhile_gt_nil cs hd)
    · have : d = '>' := dropWhile_gt_head cs d tail hd
      subst this
      rw [hd] at h
      exact absurd h (by simp)

/-- A scanner whose matcher never fires at `>` and only deletes characters
preserves the bracket-head invariant. -/
theorem ltHead_scan (m : Bool → List Char → Option (List Char))
    (hgt : ∀ b x, m b ('>' :: x) = none)
    (hsfx : ∀ b s t, m b s = some t → SuffixOf t s) :
    ∀ (n : Nat) (b : Bool) (cs : List Char), ltHead cs = true →
      ltHead (reSubFuel m n b cs) = true := by
  intro n b cs h
  cases cs with
  | nil => rw [reSubFuel_nil]; rfl
  | cons d r =>
    have h' := h
    simp only [ltHead, Bool.or_eq_true] at h'
    rcases h' with hd | hng
    · have : d = '>' := by simpa using hd
      subst this
      cases n with
      | zero => exact h
      | succ n' =>
        rw [reSubFuel_cons, hgt b r]
        simp [ltHead]
    · have hfalse : hasGt (d :: r) = false := by simpa using hng
      exact ltHead_of_no_gt
        (hasGt_false_of_sublist (reSubFuel_sublist m hsfx n b (d :: r)) hfalse)

/-- The `GENERICS` substitution establishes the bracket invariant. -/
theorem ltOk_reSub_generics :
    ∀ (n : Nat) (b : Bool) (s : List Char), s.length ≤ n →
      ltOk (reSubFuel GENERICS n b s) = true := by
  intro n
  induction n with
  | zero =>
    intro b s h
    have : s = [] := List.length_eq_zero.mp (Nat.le_zero.mp h)
    subst this
    rfl
  | succ n ih =>
    intro b s h
    cases s with
    | nil => rw [reSubFuel_nil]; rfl
    | cons c cs =>
      rw [reSubFuel_cons]
      cases hm' : GENERICS b (c :: cs) with
      | some t =>
        have hlt := (GENERICS_some hm').2
        simp only [List.length_cons] at h hlt
        exact ih true t (by omega)
      | none =>
        simp only [List.length_cons] at h
        have hrec := ih (!isWordChar c) cs (by omega)
        rw [ltOk_cons, Bool.and_eq_true]
        refine ⟨?_, hrec⟩
        by_cases hc : c = '<'
        · subst hc
          rw [Bool.or_eq_true]
          right
          exact ltHead_scan GENERICS GENERICS_gt_none
            (fun _ _ _ hsome => (GENERICS_some hsome).1) n _ cs
            (GENERICS_none_ltHead hm')
        · rw [Bool.or_eq_true]
          left
          simpa using hc

/-- The `TYPE_ANNOTATION` substitution preserves the bracket invariant. -/
theorem ltOk_reSub_annot :
    ∀ (n : Nat) (b : Bool) (s : List Char), s.length ≤ n → ltOk s = true →
      ltOk (reSubFuel TYPE_ANNOT n b s) = true := by
  intro n
  induction n with
  | zero =>
    intro b s h hok
    have : s = [] := List.length_eq_zero.mp (Nat.le_zero.mp h)
    subst this
    rfl
  | succ n ih =>
    intro b s h hok
    cases s with
    | nil => rw [reSubFuel_nil]; rfl
    | cons c cs =>
      rw [reSubFuel_cons]
      cases hm' : TYPE_ANNOT b (c :: cs) with
      | some t =>
        obtain ⟨hsfx, hlt⟩ := TYPE_ANNOT_some hm'
        simp only [List.length_cons] at h hlt
        exact ih true t (by omega) (ltOk_suffixOf hsfx hok)
      | none =>
        simp only [List.length_cons] at h
        have hrec := ih (!isWordChar c) cs (by omega) (ltOk_tail hok)
        rw [ltOk_cons, Bool.and_eq_true]
        refine ⟨?_, hrec⟩
        by_cases hc : c = '<'
        · subst hc
          have hlt : ltHead cs = true := by
            rw [ltOk_cons, Bool.and_eq_true] at hok
            simpa using hok.1
          rw [Bool.or_eq_true]
          right
          exact ltHead_scan TYPE_ANNOT TYPE_ANNOT_gt_none
            (fun _ _ _ hsome => (TYPE_ANNOT_some hsome).1) n _ cs hlt
        · rw [Bool.or_eq_true]
          left
          simpa using hc

/-- A string with the bracket invariant has no `GENERICS` match anywhere. -/
theorem hasMatchB_generics_of_ltOk :
    ∀ (s : List Char) (b : Bool), ltOk s = true → hasMatchB GENERICS b s = false := by
  intro s
  induction s with
  | nil => intro b _; rfl
  | cons c cs ih =>
    intro b h
    have h2 := ih (!isWordChar c) (ltOk_tail h)
    suffices hnone : GENERICS b (c :: cs) = none by
      simp [hasMatchB, hnone, h2]
    by_cases hc : c = '<'
    · subst hc
      have hlt : ltHead cs = true := by
        rw [ltOk_cons, Bool.and_eq_true] at h
        simpa using h.1
      cases cs with
      | nil => rfl
      | cons d r =>
        simp only [ltHead, Bool.or_eq_true] at hlt
        rcases hlt with hd | hng
        · have : d = '>' := by simpa using hd
          subst this
          rfl
        · have hfalse : hasGt (d :: r) = false := by simpa using hng
          have hd' : d ≠ '>' := by
            intro e
            subst e
            simp [hasGt] at hfalse
          have hcond : (d != '>') = true := by simpa using hd'
          have hdw := hasGt_false_dropWhile (d :: r) hfalse
          simp [GENERICS, List.takeWhile_cons, hcond, hdw]
    · exact GENERICS_ne_lt hc b cs

/-! ## Claims about the filter -/

/-- C1: `_strip_line` equals the composition of the four single-pattern
substitutions, applied in the fixed order: access modifiers, then
`readonly`, then generics, then type annotations. -/
theorem strip_line_is_composition (line : List Char) :
    _strip_line line =
      reSub TYPE_ANNOT (reSub GENERICS (reSub READONLY (reSub ACCESS_MODIFIER line))) :=
  rfl

/-- C2: on the concrete line
`private readonly value: Map<string, number>;` the filter returns exactly
`value;`. -/
theorem strip_line_example :
    stripLineStr "private readonly value: Map<string, number>;" = "value;" := by
  decide

/-- C5: when none of the four patterns matches anywhere in the line, the
line passes through `_strip_line` unchanged. -/
theorem unmatched_line_unchanged (line : List Char)
    (h1 : hasMatchB ACCESS_MODIFIER true line = false)
    (h2 : hasMatchB READONLY true line = false)
    (h3 : hasMatchB GENERICS true line = false)
    (h4 : hasMatchB TYPE_ANNOT true line = false) :
    _strip_line line = line := by
  show reSub TYPE_ANNOT (reSub GENERICS (reSub READONLY (reSub ACCESS_MODIFIER line))) = line
  have e1 : reSub ACCESS_MODIFIER line = line := reSubFuel_id _ _ _ _ h1
  rw [e1]
  have e2 : reSub READONLY line = line := reSubFuel_id _ _ _ _ h2
  rw [e2]
  have e3 : reSub GENERICS line = line := reSubFuel_id _ _ _ _ h3
  rw [e3]
  exact reSubFuel_id _ _ _ _ h4

/-- Witness for C5: a concrete line without any keyword, angle bracket or
colon is returned unchanged. -/
theorem unmatched_line_unchanged_witness :
    _strip_line "foo bar(a, b);".data = "foo bar(a, b);".data :=
  unmatched_line_unchanged "foo bar(a, b);".data (by decide) (by decide) (by decide)
    (by decide)

/-- C6: the filter is stateless across lines: the text `main` writes equals
the concatenation of `_strip_line` applied to each input line independently
and in order. -/
theorem main_stateless_concat (stdinLines : List (List Char)) :
    main stdinLines = (stdinLines.map _strip_line).flatten := by
  rw [main, mainLoop_eq]
  simp

/-- C7: for every finite input the script terminates normally: `main`
produces its output for every line list (it is a total function of the
input) and the process exit code is 0; no input makes the filter fail. -/
theorem script_total_exit_zero (stdinLines : List (List Char)) :
    (runScript stdinLines).1 = (stdinLines.map _strip_line).flatten ∧
      (runScript stdinLines).2 = 0 := by
  constructor
  · show main stdinLines = _
    rw [main, mainLoop_eq]
    simp
  · rfl

/-- C10: the output of `_strip_line` is a subsequence of the input line
(the substitutions only delete characters), so its length never exceeds the
input's length. -/
theorem strip_line_sublist (line : List Char) :
    (_strip_line line).Sublist line ∧ (_strip_line line).length ≤ line.length := by
  have h : (_strip_line line).Sublist line := by
    show (reSub TYPE_ANNOT (reSub GENERICS (reSub READONLY
      (reSub ACCESS_MODIFIER line)))).Sublist line
    exact ((reSub_sublist_annot _).trans ((reSub_sublist_generics _).trans
      ((reSub_sublist_readonly _).trans (reSub_sublist_access line))))
  exact ⟨h, h.length_le⟩

/-- C3: if the input line contains an occurrence of an access-modifier
keyword — `public`, `private` or `protected` at a word boundary, i.e. not
preceded by a word character — followed by a (maximal) whitespace run, then
the output of `_strip_line` omits that keyword and the whitespace that
follows it: the output equals the output for the line with the occurrence
deleted. -/
theorem access_occurrence_removed (u kw w v : List Char)
    (hkw : kw ∈ accessKws)
    (hw : w ≠ []) (hwsp : ∀ c ∈ w, isPySpace c = true)
    (hu : ∀ x, lastChar u = some x → isWordChar x = false)
    (hv : ∀ c, v.head? = some c → isPySpace c = false) :
    _strip_line (u ++ (kw ++ (w ++ v))) = _strip_line (u ++ v) := by
  have e : reSub ACCESS_MODIFIER (u ++ (kw ++ (w ++ v))) =
      reSub ACCESS_MODIFIER (u ++ v) := by
    unfold reSub
    exact reSub_access_junction hkw hw hwsp hv _ _ true u hu (fun _ => rfl)
      (Nat.le_refl _) (Nat.le_refl _)
  show reSub TYPE_ANNOT (reSub GENERICS (reSub READONLY
    (reSub ACCESS_MODIFIER (u ++ (kw ++ (w ++ v)))))) = _
  rw [e]
  rfl

/-- Witness for C3: on `x private y;` the filter result equals the result
for `x y;`. -/
theorem access_occurrence_removed_witness :
    _strip_line ("x ".data ++ ("private".data ++ (" ".data ++ "y;".data))) =
      _strip_line ("x ".data ++ "y;".data) :=
  access_occurrence_removed "x ".data "private".data " ".data "y;".data
    (by decide) (by decide) (by decide)
    (by
      intro x hx
      have h0 : lastChar "x ".data = some ' ' := rfl
      rw [h0] at hx
      injection hx with h
      rw [← h]
      decide)
    (by
      intro c hc
      have h0 : ("y;".data).head? = some 'y' := rfl
      rw [h0] at hc
      injection hc with h
      rw [← h]
      decide)

/-- Counterexample to C4 as stated: the line `foo<public > bar` contains
the bracketed generic segment `<public >`, yet the filter outputs
`foo<> bar` — both angle brackets of that segment survive, because the
`ACCESS_MODIFIER` pass empties the interior before `GENERICS` runs.  So
the output does not omit the entire bracketed segment, brackets
included. -/
theorem generic_segment_removed_cex :
    hasMatchB GENERICS true "foo<public > bar".data = true ∧
      _strip_line "foo<public > bar".data = "foo<> bar".data ∧
      '<' ∈ _strip_line "foo<public > bar".data ∧
      '>' ∈ _strip_line "foo<public > bar".data := by
  decide

/-- C4 (amended): if the input line contains a bracketed generic segment (a
`<`, a nonempty run of non-`>` characters, and a `>` — exactly a `GENERICS`
match), the output of `_strip_line` contains no such segment: every
bracketed segment with nonempty interior is gone from the output, though a
bare empty bracket pair `<>` may remain when an earlier substitution
empties a segment's interior. -/
theorem generic_segment_removed (line : List Char)
    (_hseg : hasMatchB GENERICS true line = true) :
    hasMatchB GENERICS true (_strip_line line) = false := by
  have l1 : ltOk (reSub GENERICS (reSub READONLY (reSub ACCESS_MODIFIER line))) = true :=
    ltOk_reSub_generics _ true _ (Nat.le_refl _)
  have l2 : ltOk (reSub TYPE_ANNOT (reSub GENERICS
      (reSub READONLY (reSub ACCESS_MODIFIER line)))) = true :=
    ltOk_reSub_annot _ true _ (Nat.le_refl _) l1
  exact hasMatchB_generics_of_ltOk _ true l2

/-- Witness for C4: a concrete line with a generic segment; the filter's
output contains none. -/
theorem generic_segment_removed_witness :
    hasMatchB GENERICS true "value: Map<string, number>;".data = true ∧
      hasMatchB GENERICS true (_strip_line "value: Map<string, number>;".data) = false :=
  ⟨by decide, generic_segment_removed "value: Map<string, number>;".data (by decide)⟩

end TsFilter

/-! ## Claims about the configuration files -/

namespace DocsConf

/-- C8: `linkify` is enabled exactly when the optional dependency
`linkify_it` is importable; when it is not, the configuration still loads
with the base extensions `colon_fence` and `substitution` unchanged and a
warning is emitted. -/
theorem linkify_degrades_gracefully (linkify_available : Bool) :
    ("linkify" ∈ (loadMystSetup linkify_available).myst_enable_extensions ↔
      linkify_available = true) ∧
    "colon_fence" ∈ (loadMystSetup linkify_available).myst_enable_extensions ∧
    "substitution" ∈ (loadMystSetup linkify_available).myst_enable_extensions ∧
    (linkify_available = false → (loadMystSetup linkify_available).warnings ≠ []) := by
  cases linkify_available <;>
    simp [loadMystSetup, mystBaseExtensions, linkifyWarning]

/-- Witness for C8 at the concrete input `linkify_available = false`. -/
theorem linkify_degrades_gracefully_witness :
    "linkify" ∉ (loadMystSetup false).myst_enable_extensions ∧
      (loadMystSetup false).warnings ≠ [] := by
  have h := linkify_degrades_gracefully false
  exact ⟨fun hm => by simpa using h.1.mp hm, h.2.2.2 rfl⟩

/-- C9: after the generation step, `have_typedoc` holds exactly when the
generated `index.html` exists, and `setup` registers that very value (with
registered default `False`) as the Sphinx config value `have_typedoc`. -/
theorem have_typedoc_registered (e : TypedocEnv) (app : SphinxApp) :
    (have_typedoc e = true ↔ fsAfterGeneration e = true) ∧
    (setup (have_typedoc e) app).config_have_typedoc = fsAfterGeneration e ∧
    ("have_typedoc", false) ∈ (setup (have_typedoc e) app).registered_values := by
  refine ⟨Iff.rfl, rfl, ?_⟩
  simp [setup]

end DocsConf
